import Mathlib

/-!
Verification of the pcaphar capture demultiplexer (`src/third_party/pcap2har/pcap.py`
and `src/third_party/pcap2har/main.py`) against its natural-language specification.

The embedding below translates `TCPFlowAccumulator` — its scan loop (`__init__`),
`process_packet` and `get_flow` — and the command-line argument handling of
`main.py` into Lean.  The collaborating class `tcp.Flow` lives in `tcp.py`, which
is not part of the sources at hand; it is modelled from the spec (§3, §4.3),
as marked on each such definition.
-/

namespace Pcap

/-- An endpoint is an (address, port) pair.  Addresses are abstracted to `Nat`. -/
abbrev Endpoint : Type := Nat × Nat

/-- A socket, as in `pcap.py`: the tuple `((srcip, sport), (dstip, dport))`. -/
abbrev Socket : Type := Endpoint × Endpoint

/-- A decoded TCP segment (`tcp.Packet(ts, buf, eth, ip, tcp)`): what the scan
loop hands to `process_packet`.  Only the socket and the payload bytes are
relevant to the claims. -/
structure Packet where
  socket : Socket
  payload : List Nat
deriving DecidableEq

/-- Source endpoint of a packet (`src` in `process_packet`). -/
def Packet.src (p : Packet) : Endpoint := p.socket.1

/-- Destination endpoint of a packet (`dst` in `process_packet`). -/
def Packet.dst (p : Packet) : Endpoint := p.socket.2

/-- Source port (`srcport`). -/
def Packet.srcport (p : Packet) : Nat := p.socket.1.2

/-- Destination port (`dstport`). -/
def Packet.dstport (p : Packet) : Nat := p.socket.2.2

/-- Modelled from the spec: `tcp.Flow` (file `tcp.py`, not among the sources).
A ConnectionStream owns two ordered sequences of segments, one per direction,
a canonical socket fixed by its first segment, and a completion operation
(`finish`); `finishCount` counts how often `finish` has run, so that
"finalized exactly once" is expressible. -/
structure Flow where
  socket : Socket
  fwd : List Packet
  rev : List Packet
  finishCount : Nat
deriving DecidableEq

/-- Modelled from the spec: a fresh `tcp.Flow()` holding its first packet; the
first segment fixes the canonical forward direction. -/
def Flow.new (p : Packet) : Flow :=
  { socket := p.socket, fwd := [p], rev := [], finishCount := 0 }

/-- Modelled from the spec: `tcp.Flow.add` appends the segment to the
directional sequence selected by which canonical endpoint its source matches. -/
def Flow.add (f : Flow) (p : Packet) : Flow :=
  if p.src = f.socket.1 then { f with fwd := f.fwd ++ [p] }
  else { f with rev := f.rev ++ [p] }

/-- Modelled from the spec: `tcp.Flow.finish`, the completion operation. -/
def Flow.finish (f : Flow) : Flow :=
  { f with finishCount := f.finishCount + 1 }

/-- Modelled from the spec: the reassembled forward byte stream `f.fwd.data`. -/
def Flow.fwdData (f : Flow) : List Nat :=
  (f.fwd.map Packet.payload).flatten

/-- Modelled from the spec: the reassembled reverse byte stream `f.rev.data`. -/
def Flow.revData (f : Flow) : List Nat :=
  (f.rev.map Packet.payload).flatten

/-- The registry `self.flowdict`: a socket-keyed map, embedded as an
association list in first-seen order. -/
abbrev Registry : Type := List (Socket × Flow)

/-- Key lookup in `flowdict` (`(src, dst) in self.flowdict` / subscripting). -/
def fdLookup (st : Registry) (k : Socket) : Option Flow :=
  match st with
  | [] => none
  | e :: rest => if e.1 = k then some e.2 else fdLookup rest k

/-- In-place mutation of the flow stored under an existing key
(`self.flowdict[(src, dst)].add(pkt)`). -/
def fdUpdate (st : Registry) (k : Socket) (g : Flow → Flow) : Registry :=
  st.map (fun e => if e.1 = k then (e.1, g e.2) else e)

/-- The keys of the registry. -/
def fdKeys (st : Registry) : List Socket := st.map Prod.fst

/-- The flows of the registry (`self.flowdict.itervalues()`). -/
def fdValues (st : Registry) : List Flow := st.map Prod.snd

/-- The port-filter tests of `process_packet`, in source order: 5223
(hpvirtgrp), 5228 (hpvroom), 443 (HTTPS). -/
def portExcluded (p : Packet) : Bool :=
  (p.srcport = 5223 || p.dstport = 5223) ||
  (p.srcport = 5228 || p.dstport = 5228) ||
  (p.srcport = 443 || p.dstport = 443)

/-- The method `TCPFlowAccumulator.process_packet`: drop excluded-port
segments, then try both orderings of the socket, else start a new flow under
`(src, dst)`. -/
def process_packet (flowdict : Registry) (pkt : Packet) : Registry :=
  if pkt.srcport = 5223 ∨ pkt.dstport = 5223 then flowdict
  else if pkt.srcport = 5228 ∨ pkt.dstport = 5228 then flowdict
  else if pkt.srcport = 443 ∨ pkt.dstport = 443 then flowdict
  else
    match fdLookup flowdict (pkt.src, pkt.dst) with
    | some _ => fdUpdate flowdict (pkt.src, pkt.dst) (fun f => f.add pkt)
    | none =>
      match fdLookup flowdict (pkt.dst, pkt.src) with
      | some _ => fdUpdate flowdict (pkt.dst, pkt.src) (fun f => f.add pkt)
      | none => flowdict ++ [((pkt.src, pkt.dst), Flow.new pkt)]

/-- Feeding a whole sequence of decoded TCP segments to `process_packet`. -/
def registerAll (pkts : List Packet) : Registry :=
  pkts.foldl process_packet []

/-- Two sockets denote the same unordered endpoint pair. -/
def sameUnordered (k l : Socket) : Prop :=
  k = l ∨ k = (l.2, l.1)

instance (k l : Socket) : Decidable (sameUnordered k l) := by
  unfold sameUnordered; infer_instance

/-- How the headers of one raw frame decode, abstracting the dpkt calls of the
scan loop: `dpkt.sll.SLL` / `dpkt.ethernet.Ethernet` raise a `dpkt.Error`
(`decodeErr`), or succeed with a payload that is not IPv4-over-TCP (`nonTCP`),
or yield a TCP segment (`tcpPkt`). -/
inductive FrameKind where
  | decodeErr
  | nonTCP
  | tcpPkt (p : Packet)
deriving DecidableEq

/-- One record the pcap reader yields: its header's captured length (`caplen`)
and original length (`len`), plus how its bytes decode. -/
structure RawFrame where
  caplen : Nat
  len : Nat
  kind : FrameKind
deriving DecidableEq

/-- The entries of `self.errors`: `(pkt, 'packet is too short',
debug_pkt_count)` for a caplen/len mismatch, `(None, error)` for the
`NeedData` underrun.  A `dpkt.Error` is never recorded: its handler at
pcap.py line 62 reads the unbound name `e`. -/
inductive ScanError where
  | tooShort (idx : Nat)
  | needData
deriving DecidableEq

/-- An exception escaping `TCPFlowAccumulator.__init__`: the handler
`self.errors.append((pkt, e, debug_pkt_count))` references `e`, which is
unbound (the caught exception is named `error`), so Python raises a
`NameError` that nothing in `__init__` catches. -/
inductive PyExc where
  | nameError
deriving DecidableEq

/-- The accumulator state of the scan loop.  `flowdict`, `errors` and
`debug_pkt_count` are the source's own variables; `appended`, `filtered` and
`skipped` are ghost counters mirroring which branch of the loop body each
frame took, added to state the frame-accounting claims. -/
structure ScanState where
  flowdict : Registry
  errors : List ScanError
  debugPktCount : Nat
  appended : Nat
  filtered : Nat
  skipped : Nat
deriving DecidableEq

/-- One iteration of the scan loop of `TCPFlowAccumulator.__init__`: count the
frame, record a truncation error on a caplen/len mismatch, then decode; a
decode failure raises (the `NameError` of the broken handler), a non-TCP/non-IP
frame is skipped, and a TCP segment goes to `process_packet`. -/
def scanStep (st : ScanState) (f : RawFrame) : Except PyExc ScanState :=
  let count := st.debugPktCount + 1
  let errs := if f.caplen ≠ f.len then st.errors ++ [ScanError.tooShort count]
              else st.errors
  match f.kind with
  | FrameKind.decodeErr => Except.error PyExc.nameError
  | FrameKind.nonTCP =>
      Except.ok { st with errors := errs, debugPktCount := count,
                          skipped := st.skipped + 1 }
  | FrameKind.tcpPkt p =>
      if portExcluded p then
        Except.ok { st with flowdict := process_packet st.flowdict p,
                            errors := errs, debugPktCount := count,
                            filtered := st.filtered + 1 }
      else
        Except.ok { st with flowdict := process_packet st.flowdict p,
                            errors := errs, debugPktCount := count,
                            appended := st.appended + 1 }

/-- The scan loop over the frames the reader yields. -/
def scanFrames (st : ScanState) : List RawFrame → Except PyExc ScanState
  | [] => Except.ok st
  | f :: rest =>
    match scanStep st f with
    | Except.error c => Except.error c
    | Except.ok st2 => scanFrames st2 rest

/-- The line `map(tcp.Flow.finish, self.flowdict.itervalues())` — Python 2's
eager `map`, so `finish` runs on every flow. -/
def finishAll (st : Registry) : Registry :=
  st.map (fun e => (e.1, e.2.finish))

/-- The state at the top of `__init__`: empty `flowdict` and `errors`,
`debug_pkt_count = 0`. -/
def initState : ScanState :=
  { flowdict := [], errors := [], debugPktCount := 0,
    appended := 0, filtered := 0, skipped := 0 }

/-- The scan `TCPFlowAccumulator.__init__`: `frames` are the records the reader yields
before it stops; `underrun` says whether iteration ended with a reader-level
`dpkt.dpkt.NeedData` (capture cut mid-record) rather than normal end-of-input.
On `NeedData` the handler records `(None, error)`; in either case
`map(tcp.Flow.finish, ...)` then finishes every flow.  An uncaught exception
from the loop body (the `NameError`) aborts construction entirely. -/
def scan (frames : List RawFrame) (underrun : Bool) : Except PyExc ScanState :=
  match scanFrames initState frames with
  | Except.error c => Except.error c
  | Except.ok st =>
    let st2 := if underrun then { st with errors := st.errors ++ [ScanError.needData] }
               else st
    Except.ok { st2 with flowdict := finishAll st2.flowdict }

/-- The outcome of the outer program's argument handling (`main.py` lines
26–30): proceed with the two filenames, or print usage and exit.  `sys.exit()`
is called with no argument, which is exit status 0. -/
inductive CliAction where
  | proceed (inputfile outputfile : String)
  | usageExit (status : Nat)
deriving DecidableEq

/-- The module-level argument handling of `main.py`: with exactly two
positional arguments it proceeds; otherwise it prints the help text and calls
`sys.exit()`, i.e. exits with status 0. -/
def cliMain (args : List String) : CliAction :=
  match args with
  | [a, b] => CliAction.proceed a b
  | _ => CliAction.usageExit 0

/-- C3: For every decoded TCP segment with an excluded port (443, 5223 or 5228) on
either side, `process_packet` leaves the registry unchanged: the segment is
appended to no ConnectionStream and no ConnectionStream is created, so the
filter acts before the registry lookup and filtered traffic never allocates a
flow. -/
theorem process_packet_filters_excluded_ports (st : Registry) (p : Packet)
    (h : p.srcport ∈ [443, 5223, 5228] ∨ p.dstport ∈ [443, 5223, 5228]) :
    process_packet st p = st := by
  simp only [List.mem_cons, List.not_mem_nil, or_false] at h
  rcases h with (h | h | h) | (h | h | h) <;> simp [process_packet, h]

/-- Witness for the port-filter theorem at a concrete HTTPS segment. -/
theorem process_packet_filters_excluded_ports_witness :
    ((443 : Nat) ∈ [443, 5223, 5228] ∨ (9999 : Nat) ∈ [443, 5223, 5228]) ∧
      process_packet [] { socket := ((1, 443), (2, 9999)), payload := [] } = [] :=
  ⟨Or.inl (by decide),
    process_packet_filters_excluded_ports []
      { socket := ((1, 443), (2, 9999)), payload := [] } (Or.inl (by decide))⟩

/-- A sample TCP segment between unexcluded ports, used in concrete inputs. -/
def pktAB : Packet := { socket := ((10, 1234), (20, 80)), payload := [72, 105] }

/-- A well-formed frame carrying `pktAB`. -/
def frAB : RawFrame := { caplen := 60, len := 60, kind := FrameKind.tcpPkt pktAB }

/-- A truncated frame (caplen 40 < len 60) that still decodes to `pktAB`. -/
def frTrunc : RawFrame := { caplen := 40, len := 60, kind := FrameKind.tcpPkt pktAB }

/-- C2: evaluating the scan at a capture whose first frame fails header
decoding (`dpkt.Error`), followed by a valid TCP frame.  The spec says the
error is recorded and the next frame is still registered; the code instead
raises an uncaught `NameError` from the error handler (pcap.py line 62 reads
the unbound name `e`), aborting the scan: no registry and no error list are
returned, and the second frame is never processed. -/
theorem scan_decode_error_aborts :
    scan [{ caplen := 60, len := 60, kind := FrameKind.decodeErr }, frAB] false
      = Except.error PyExc.nameError := rfl

/-- C6: truncation handling at concrete inputs.  First conjunct: a truncated
record that still decodes gets its `'packet is too short'` error recorded and
its segment registered, as the claim says.  Second conjunct: the claim's other
case — header parsing fails on the truncated bytes — should produce only the
ParseError and continue, but the code raises the uncaught `NameError` of the
broken `dpkt.Error` handler and aborts, losing even the truncation error. -/
theorem scan_truncated_record :
    scan [frTrunc] false
      = Except.ok
          { flowdict := [(((10, 1234), (20, 80)),
              { socket := ((10, 1234), (20, 80)), fwd := [pktAB], rev := [],
                finishCount := 1 })],
            errors := [ScanError.tooShort 1], debugPktCount := 1,
            appended := 1, filtered := 0, skipped := 0 } ∧
    scan [{ caplen := 40, len := 60, kind := FrameKind.decodeErr }] false
      = Except.error PyExc.nameError :=
  ⟨rfl, rfl⟩

/-- The total number of per-frame outcomes a scan state records: registered
segments, filtered segments, silent skips, and recorded errors. -/
def outcomeTotal (st : ScanState) : Nat :=
  st.appended + st.filtered + st.skipped + st.errors.length

/-- C4 counterexample: one truncated-but-decodable frame yields TWO outcomes —
a recorded ParseError and a registered Segment — so a processed frame does not
result in exactly one of the four outcomes, and the outcome counts sum to 2
while only 1 frame was processed. -/
theorem scan_outcome_double_count :
    (scan [frTrunc] false).map (fun st => (st.debugPktCount, outcomeTotal st))
      = Except.ok (1, 2) := rfl

lemma scanFrames_ok_counts (frames : List RawFrame) :
    ∀ st st2 : ScanState, scanFrames st frames = Except.ok st2 →
      st2.debugPktCount = st.debugPktCount + frames.length ∧
      st2.appended + st2.filtered + st2.skipped
        = st.appended + st.filtered + st.skipped + frames.length ∧
      st2.errors.length
        = st.errors.length + (frames.filter (fun f => f.caplen ≠ f.len)).length := by
  induction frames with
  | nil =>
    intro st st2 h
    cases h
    simp [scanFrames]
  | cons f rest ih =>
    intro st st2 h
    simp only [scanFrames] at h
    rcases hs : scanStep st f with c | stm
    · rw [hs] at h; cases h
    · rw [hs] at h
      obtain ⟨h1, h2, h3⟩ := ih stm st2 h
      have hm : stm.debugPktCount = st.debugPktCount + 1 ∧
          stm.appended + stm.filtered + stm.skipped
            = st.appended + st.filtered + st.skipped + 1 ∧
          stm.errors.length
            = st.errors.length + (if f.caplen ≠ f.len then 1 else 0) := by
        rcases f with ⟨cl, ln, k⟩
        rcases k with _ | _ | p
        · simp [scanStep] at hs
        · simp only [scanStep] at hs
          cases hs
          by_cases hc : cl ≠ ln <;> simp [hc] <;> omega
        · simp only [scanStep] at hs
          by_cases hp : portExcluded p <;> simp only [hp, if_true, if_false] at hs <;>
            cases hs <;> by_cases hc : cl ≠ ln <;> simp [hc] <;> omega
      obtain ⟨m1, m2, m3⟩ := hm
      refine ⟨?_, ?_, ?_⟩
      · rw [h1, m1, List.length_cons]; omega
      · rw [h2, m2, List.length_cons]; omega
      · rw [h3, m3, List.filter_cons]
        by_cases hc : f.caplen ≠ f.len <;> simp [hc] <;> omega

/-- C4 amended: in every scan that returns (no decode-error crash), each
processed frame yields exactly one of {registered segment, filtered segment,
silent skip}, and additionally a recorded truncation error when its captured
length differs from its original length; so frames processed = registered +
filtered + skipped, while the error list holds one entry per truncated frame
plus one for a terminating underrun — a truncated-but-decoded frame is counted
in both tallies. -/
theorem scan_accounting (frames : List RawFrame) (underrun : Bool)
    (st : ScanState) (h : scan frames underrun = Except.ok st) :
    st.debugPktCount = frames.length ∧
    st.appended + st.filtered + st.skipped = frames.length ∧
    st.errors.length
      = (frames.filter (fun f => f.caplen ≠ f.len)).length
        + (if underrun then 1 else 0) := by
  simp only [scan] at h
  rcases hs : scanFrames initState frames with c | stm
  · rw [hs] at h; cases h
  · rw [hs] at h
    obtain ⟨h1, h2, h3⟩ := scanFrames_ok_counts frames initState stm hs
    have e1 : stm.debugPktCount = frames.length := by simpa [initState] using h1
    have e2 : stm.appended + stm.filtered + stm.skipped = frames.length := by
      simpa [initState] using h2
    have e3 : stm.errors.length
        = (frames.filter (fun f => f.caplen ≠ f.len)).length := by
      simpa [initState] using h3
    cases underrun
    · simp only [Bool.false_eq_true, if_false] at h
      cases h
      exact ⟨e1, e2, by simpa using e3⟩
    · simp only [if_true] at h
      cases h
      refine ⟨e1, e2, ?_⟩
      simp only [List.length_append, List.length_singleton, if_true]
      omega

/-- The state a scan of the single frame `frAB` returns. -/
def stAB : ScanState :=
  { flowdict := [(((10, 1234), (20, 80)),
      { socket := ((10, 1234), (20, 80)), fwd := [pktAB], rev := [],
        finishCount := 1 })],
    errors := [], debugPktCount := 1, appended := 1, filtered := 0, skipped := 0 }

/-- Witness for the amended accounting theorem at the one-frame capture `[frAB]`. -/
theorem scan_accounting_witness :
    stAB.debugPktCount = [frAB].length ∧
    stAB.appended + stAB.filtered + stAB.skipped = [frAB].length ∧
    stAB.errors.length
      = ([frAB].filter (fun f => f.caplen ≠ f.len)).length
        + (if false then 1 else 0) :=
  scan_accounting [frAB] false stAB rfl

lemma Flow.finishCount_add (f : Flow) (p : Packet) :
    (f.add p).finishCount = f.finishCount := by
  unfold Flow.add; split <;> rfl

lemma fdValues_fdUpdate_mem (st : Registry) (k : Socket) (g : Flow → Flow)
    (fl : Flow) (h : fl ∈ fdValues (fdUpdate st k g)) :
    fl ∈ fdValues st ∨ ∃ f0, f0 ∈ fdValues st ∧ fl = g f0 := by
  simp only [fdValues, fdUpdate, List.map_map, List.mem_map, Function.comp] at h
  obtain ⟨e, he, hfl⟩ := h
  by_cases hk : e.1 = k
  · rw [if_pos hk] at hfl
    right
    exact ⟨e.2, List.mem_map_of_mem Prod.snd he, hfl.symm⟩
  · rw [if_neg hk] at hfl
    left
    rw [← hfl]
    exact List.mem_map_of_mem Prod.snd he

lemma process_packet_unfinished (st : Registry) (p : Packet)
    (h : ∀ fl ∈ fdValues st, fl.finishCount = 0) :
    ∀ fl ∈ fdValues (process_packet st p), fl.finishCount = 0 := by
  intro fl hfl
  unfold process_packet at hfl
  split_ifs at hfl
  · exact h fl hfl
  · exact h fl hfl
  · exact h fl hfl
  · rcases hl1 : fdLookup st (p.src, p.dst) with _ | f1
    · rw [hl1] at hfl
      rcases hl2 : fdLookup st (p.dst, p.src) with _ | f2
      · rw [hl2] at hfl
        simp only [fdValues, List.map_append] at hfl
        rcases List.mem_append.mp hfl with hx | hx
        · exact h fl hx
        · simp only [List.map_cons, List.map_nil, List.mem_singleton] at hx
          rw [hx]; rfl
      · rw [hl2] at hfl
        rcases fdValues_fdUpdate_mem _ _ _ _ hfl with hx | ⟨f0, hf0, rfl⟩
        · exact h fl hx
        · rw [Flow.finishCount_add]; exact h f0 hf0
    · rw [hl1] at hfl
      rcases fdValues_fdUpdate_mem _ _ _ _ hfl with hx | ⟨f0, hf0, rfl⟩
      · exact h fl hx
      · rw [Flow.finishCount_add]; exact h f0 hf0

lemma scanStep_unfinished (st : ScanState) (f : RawFrame) (st2 : ScanState)
    (hs : scanStep st f = Except.ok st2)
    (h : ∀ fl ∈ fdValues st.flowdict, fl.finishCount = 0) :
    ∀ fl ∈ fdValues st2.flowdict, fl.finishCount = 0 := by
  rcases f with ⟨cl, ln, k⟩
  rcases k with _ | _ | p
  · simp [scanStep] at hs
  · simp only [scanStep] at hs
    cases hs
    simpa using h
  · simp only [scanStep] at hs
    by_cases hp : portExcluded p <;> simp only [hp, if_true, if_false] at hs <;>
      cases hs <;> exact process_packet_unfinished st.flowdict p h

lemma scanFrames_unfinished (frames : List RawFrame) :
    ∀ st st2 : ScanState, scanFrames st frames = Except.ok st2 →
      (∀ fl ∈ fdValues st.flowdict, fl.finishCount = 0) →
      ∀ fl ∈ fdValues st2.flowdict, fl.finishCount = 0 := by
  induction frames with
  | nil =>
    intro st st2 h h0
    cases h
    exact h0
  | cons f rest ih =>
    intro st st2 h h0
    simp only [scanFrames] at h
    rcases hs : scanStep st f with c | stm
    · rw [hs] at h; cases h
    · rw [hs] at h
      exact ih stm st2 h (scanStep_unfinished st f stm hs h0)

lemma finishAll_finishCount (st : Registry)
    (h : ∀ fl ∈ fdValues st, fl.finishCount = 0) :
    ∀ fl ∈ fdValues (finishAll st), fl.finishCount = 1 := by
  intro fl hfl
  simp only [fdValues, finishAll, List.map_map, List.mem_map, Function.comp] at hfl
  obtain ⟨e, he, hfl⟩ := hfl
  have h2 := h e.2 (List.mem_map_of_mem Prod.snd he)
  rw [← hfl]
  simp [Flow.finish, h2]

/-- C7: every scan that returns — at normal end-of-input or after the
`NeedData` early termination — has run the completion operation
(`tcp.Flow.finish`) on every ConnectionStream in the registry exactly once:
every flow handed back carries `finishCount = 1`. -/
theorem scan_finalizes_every_flow_once (frames : List RawFrame)
    (underrun : Bool) (st : ScanState) (h : scan frames underrun = Except.ok st) :
    ∀ fl ∈ fdValues st.flowdict, fl.finishCount = 1 := by
  simp only [scan] at h
  rcases hs : scanFrames initState frames with c | stm
  · rw [hs] at h; cases h
  · rw [hs] at h
    have h0 : ∀ fl ∈ fdValues stm.flowdict, fl.finishCount = 0 :=
      scanFrames_unfinished frames initState stm hs (by simp [initState, fdValues])
    cases underrun
    · simp only [Bool.false_eq_true, if_false] at h
      cases h
      exact finishAll_finishCount _ h0
    · simp only [if_true] at h
      cases h
      exact finishAll_finishCount _ h0

/-- The single flow of a scan of `[frAB]`, already finished. -/
def flowAB1 : Flow :=
  { socket := ((10, 1234), (20, 80)), fwd := [pktAB], rev := [], finishCount := 1 }

/-- Witness for the finalize-once theorem: the flow the one-frame scan `[frAB]`
returns has been finished exactly once. -/
theorem scan_finalizes_every_flow_once_witness : flowAB1.finishCount = 1 :=
  scan_finalizes_every_flow_once [frAB] false stAB rfl flowAB1
    (by simp [stAB, fdValues, flowAB1, pktAB])

/-- C5: a reader-level underrun (`dpkt.dpkt.NeedData`) at frame *i* halts the
loop, records the fatal error `(None, error)` in the error list, and the
completion operation still runs on every ConnectionStream built from the
frames already processed before the scanner returns. -/
theorem scan_underrun_contained (frames : List RawFrame) (st : ScanState)
    (h : scan frames true = Except.ok st) :
    ScanError.needData ∈ st.errors ∧
      ∀ fl ∈ fdValues st.flowdict, fl.finishCount = 1 := by
  simp only [scan] at h
  rcases hs : scanFrames initState frames with c | stm
  · rw [hs] at h; cases h
  · rw [hs] at h
    have h0 : ∀ fl ∈ fdValues stm.flowdict, fl.finishCount = 0 :=
      scanFrames_unfinished frames initState stm hs (by simp [initState, fdValues])
    simp only [if_true] at h
    cases h
    constructor
    · exact List.mem_append_right _ (List.mem_singleton.mpr rfl)
    · exact finishAll_finishCount _ h0

/-- The state the scan of `[frAB]` cut short by an underrun returns. -/
def stABu : ScanState :=
  { flowdict := [(((10, 1234), (20, 80)), flowAB1)],
    errors := [ScanError.needData], debugPktCount := 1,
    appended := 1, filtered := 0, skipped := 0 }

/-- Witness for the underrun-containment theorem at the one-frame capture
`[frAB]` cut short by `NeedData`. -/
theorem scan_underrun_contained_witness :
    ScanError.needData ∈ stABu.errors ∧
      ∀ fl ∈ fdValues stABu.flowdict, fl.finishCount = 1 :=
  scan_underrun_contained [frAB] stABu rfl

/-- C9 counterexample: invoked with a single positional argument, the outer
program prints the usage text and calls `sys.exit()` — which exits with
status 0, not with a non-zero/error status as the claim states. -/
theorem cliMain_one_arg_exits_zero :
    cliMain ["capture.pcap"] = CliAction.usageExit 0 := rfl

/-- C9 amended: with any number of positional arguments other than exactly
two, the outer program prints the usage message and exits — with status 0
(`sys.exit()` with no argument) — rather than proceeding to process a
capture. -/
theorem cliMain_usage_exit (args : List String) (h : args.length ≠ 2) :
    cliMain args = CliAction.usageExit 0 := by
  rcases args with _ | ⟨a, _ | ⟨b, _ | ⟨c, t⟩⟩⟩
  · rfl
  · rfl
  · exact absurd rfl h
  · rfl

/-- Witness for the amended CLI theorem at the empty argument list. -/
theorem cliMain_usage_exit_witness :
    ([] : List String).length ≠ 2 ∧ cliMain [] = CliAction.usageExit 0 :=
  ⟨by decide, cliMain_usage_exit [] (by decide)⟩

lemma Flow.socket_add (f : Flow) (p : Packet) : (f.add p).socket = f.socket := by
  unfold Flow.add; split <;> rfl

lemma fdLookup_some_mem (st : Registry) (k : Socket) (f : Flow)
    (h : fdLookup st k = some f) : k ∈ fdKeys st := by
  induction st with
  | nil => cases h
  | cons e rest ih =>
    simp only [fdLookup] at h
    by_cases hk : e.1 = k
    · simp [fdKeys, ← hk]
    · rw [if_neg hk] at h
      exact List.mem_cons_of_mem _ (ih h)

lemma fdLookup_none_not_mem (st : Registry) (k : Socket)
    (h : fdLookup st k = none) : k ∉ fdKeys st := by
  induction st with
  | nil => simp [fdKeys]
  | cons e rest ih =>
    simp only [fdLookup] at h
    by_cases hk : e.1 = k
    · rw [if_pos hk] at h; cases h
    · rw [if_neg hk] at h
      simp only [fdKeys, List.map_cons, List.mem_cons]
      rintro (rfl | hmem)
      · exact hk rfl
      · exact ih h hmem

lemma fdKeys_fdUpdate (st : Registry) (k : Socket) (g : Flow → Flow) :
    fdKeys (fdUpdate st k g) = fdKeys st := by
  unfold fdKeys fdUpdate
  rw [List.map_map]
  apply List.map_congr_left
  intro e _
  by_cases hk : e.1 = k <;> simp [Function.comp, hk]

lemma fdUpdate_congr (st : Registry) (k : Socket) (g1 g2 : Flow → Flow)
    (h : ∀ e ∈ st, e.1 = k → g1 e.2 = g2 e.2) :
    fdUpdate st k g1 = fdUpdate st k g2 := by
  unfold fdUpdate
  apply List.map_congr_left
  intro e he
  by_cases hk : e.1 = k
  · simp [hk, h e he hk]
  · simp [hk]

/-- The registry invariant the scan maintains: every stored flow's canonical
socket is its key, and no two keys denote the same unordered endpoint pair. -/
def RegistryWF (st : Registry) : Prop :=
  (∀ e ∈ st, e.2.socket = e.1) ∧
  ∀ k1 ∈ fdKeys st, ∀ k2 ∈ fdKeys st, sameUnordered k1 k2 → k1 = k2

lemma fdUpdate_socket_inv (st : Registry) (k : Socket) (p : Packet)
    (h : ∀ e ∈ st, e.2.socket = e.1) :
    ∀ e ∈ fdUpdate st k (fun f => f.add p), e.2.socket = e.1 := by
  intro e he
  simp only [fdUpdate, List.mem_map] at he
  obtain ⟨e0, he0, hfe⟩ := he
  by_cases hk : e0.1 = k
  · rw [if_pos hk] at hfe
    rw [← hfe]
    simpa [Flow.socket_add] using h e0 he0
  · rw [if_neg hk] at hfe
    rw [← hfe]
    exact h e0 he0

lemma process_packet_WF (st : Registry) (p : Packet) (h : RegistryWF st) :
    RegistryWF (process_packet st p) := by
  obtain ⟨hsock, huniq⟩ := h
  unfold process_packet
  split_ifs
  · exact ⟨hsock, huniq⟩
  · exact ⟨hsock, huniq⟩
  · exact ⟨hsock, huniq⟩
  · rcases hl1 : fdLookup st (p.src, p.dst) with _ | f1
    · rcases hl2 : fdLookup st (p.dst, p.src) with _ | f2
      · have hn1 := fdLookup_none_not_mem st _ hl1
        have hn2 := fdLookup_none_not_mem st _ hl2
        constructor
        · intro e he
          rcases List.mem_append.mp he with he | he
          · exact hsock e he
          · rw [List.mem_singleton.mp he]
            rfl
        · intro k1 hk1 k2 hk2 hsame
          simp only [fdKeys, List.map_append, List.map_cons, List.map_nil,
            List.mem_append, List.mem_singleton] at hk1 hk2
          rcases hk1 with hk1 | rfl <;> rcases hk2 with hk2 | rfl
          · exact huniq k1 hk1 k2 hk2 hsame
          · rcases hsame with rfl | heq
            · rfl
            · exact absurd hk1 (by rw [heq]; exact hn2)
          · rcases hsame with heq | heq
            · exact absurd hk2 (by rw [← heq]; exact hn1)
            · exact absurd hk2 (by
                have : k2 = ((k2.2, k2.1).2, (k2.2, k2.1).1) := rfl
                rw [this, ← heq]; exact hn2)
          · rfl
      · refine ⟨fdUpdate_socket_inv st _ p hsock, ?_⟩
        rw [fdKeys_fdUpdate]
        exact huniq
    · refine ⟨fdUpdate_socket_inv st _ p hsock, ?_⟩
      rw [fdKeys_fdUpdate]
      exact huniq

lemma foldl_process_packet_WF (pkts : List Packet) :
    ∀ st : Registry, RegistryWF st → RegistryWF (pkts.foldl process_packet st) := by
  induction pkts with
  | nil => intro st h; exact h
  | cons p rest ih =>
    intro st h
    exact ih (process_packet st p) (process_packet_WF st p h)

lemma registerAll_WF (pkts : List Packet) : RegistryWF (registerAll pkts) :=
  foldl_process_packet_WF pkts [] ⟨by simp, by simp [fdKeys]⟩

lemma portExcluded_false (p : Packet) (h : portExcluded p = false) :
    ¬(p.srcport = 5223 ∨ p.dstport = 5223) ∧
    ¬(p.srcport = 5228 ∨ p.dstport = 5228) ∧
    ¬(p.srcport = 443 ∨ p.dstport = 443) := by
  simp only [portExcluded, Bool.or_eq_false_iff, decide_eq_false_iff_not] at h
  tauto

lemma fdLookup_sockets (st : Registry) (k : Socket) (f : Flow)
    (hsock : ∀ e ∈ st, e.2.socket = e.1) (h : fdLookup st k = some f) :
    f.socket = k := by
  induction st with
  | nil => cases h
  | cons e rest ih =>
    simp only [fdLookup] at h
    by_cases hk : e.1 = k
    · rw [if_pos hk] at h
      rw [← Option.some_inj.mp h, ← hk]
      exact hsock e (List.mem_cons_self e rest)
    · rw [if_neg hk] at h
      exact ih (fun e2 he2 => hsock e2 (List.mem_cons_of_mem e he2)) h

/-- C1: segments with the same unordered endpoint pair all land in one
ConnectionStream.  First conjunct: after any sequence of registrations the
registry never holds two keys for the same unordered pair.  Second conjunct
(for unfiltered segments): a segment is appended to the forward sequence of
the flow under key `(src, dst)` when that key exists, appended to the reverse
sequence of the flow under `(dst, src)` when only that key exists, and only
otherwise is a new flow created, under key `(src, dst)` — so the first
segment's orientation fixes the canonical forward direction.  Third conjunct:
registration never removes or rewrites an existing key, so the canonical
direction, once fixed, persists. -/
theorem register_one_stream_per_pair (pkts : List Packet) (p : Packet) :
    (∀ k1 ∈ fdKeys (registerAll pkts), ∀ k2 ∈ fdKeys (registerAll pkts),
        sameUnordered k1 k2 → k1 = k2) ∧
    (portExcluded p = false →
      (∀ f1, fdLookup (registerAll pkts) (p.src, p.dst) = some f1 →
        process_packet (registerAll pkts) p
          = fdUpdate (registerAll pkts) (p.src, p.dst)
              (fun f => { f with fwd := f.fwd ++ [p] })) ∧
      (fdLookup (registerAll pkts) (p.src, p.dst) = none →
        ∀ f2, fdLookup (registerAll pkts) (p.dst, p.src) = some f2 →
          process_packet (registerAll pkts) p
            = fdUpdate (registerAll pkts) (p.dst, p.src)
                (fun f => { f with rev := f.rev ++ [p] })) ∧
      (fdLookup (registerAll pkts) (p.src, p.dst) = none →
        fdLookup (registerAll pkts) (p.dst, p.src) = none →
          process_packet (registerAll pkts) p
            = registerAll pkts ++ [((p.src, p.dst), Flow.new p)])) ∧
    ∀ k ∈ fdKeys (registerAll pkts), k ∈ fdKeys (process_packet (registerAll pkts) p) := by
  obtain ⟨hsock, huniq⟩ := registerAll_WF pkts
  refine ⟨huniq, ?_, ?_⟩
  · intro hex
    obtain ⟨h1, h2, h3⟩ := portExcluded_false p hex
    refine ⟨?_, ?_, ?_⟩
    · intro f1 hl1
      unfold process_packet
      rw [if_neg h1, if_neg h2, if_neg h3, hl1]
      apply fdUpdate_congr
      intro e he hk
      have hes : e.2.socket = (p.src, p.dst) := by rw [hsock e he, hk]
      simp [Flow.add, hes]
    · intro hl1 f2 hl2
      unfold process_packet
      rw [if_neg h1, if_neg h2, if_neg h3, hl1, hl2]
      have hne : p.src ≠ p.dst := by
        intro hsd
        rw [hsd] at hl1
        rw [hsd] at hl2
        rw [hl1] at hl2
        cases hl2
      apply fdUpdate_congr
      intro e he hk
      have hes : e.2.socket = (p.dst, p.src) := by rw [hsock e he, hk]
      simp [Flow.add, hes, hne]
    · intro hl1 hl2
      unfold process_packet
      rw [if_neg h1, if_neg h2, if_neg h3, hl1, hl2]
  · intro k hk
    unfold process_packet
    split_ifs
    · exact hk
    · exact hk
    · exact hk
    · rcases hl1 : fdLookup (registerAll pkts) (p.src, p.dst) with _ | f1
      · rcases hl2 : fdLookup (registerAll pkts) (p.dst, p.src) with _ | f2
        · simp only [fdKeys, List.map_append, List.mem_append]
          exact Or.inl hk
        · rw [fdKeys_fdUpdate]; exact hk
      · rw [fdKeys_fdUpdate]; exact hk

/-- A Python value supplied as a keyword argument of `get_flow`. -/
inductive QueryValue where
  | sock (s : Socket)
  | bytes (b : List Nat)
  | port (n : Nat)
deriving DecidableEq

/-- The predicate table of `get_flow` ("a map of keywords to predicates"):
`none` when the keyword is not a key of the table.  The byte criteria check
that the supplied bytes begin the direction's reassembled data
(`data.startswith(v)`).  A value of the wrong shape fails the criterion (for
the equality criteria that is Python's cross-type `==`; no claim exercises a
wrongly-shaped byte criterion). -/
def predicates (k : String) (f : Flow) (v : QueryValue) : Option Bool :=
  if k = "socket" then
    some (match v with
      | QueryValue.sock s => decide (f.socket = s)
      | _ => false)
  else if k = "fwd" then
    some (match v with
      | QueryValue.bytes b => b.isPrefixOf f.fwdData
      | _ => false)
  else if k = "rev" then
    some (match v with
      | QueryValue.bytes b => b.isPrefixOf f.revData
      | _ => false)
  else if k = "sport" then
    some (match v with
      | QueryValue.port n => decide (f.socket.1.2 = n)
      | _ => false)
  else if k = "dport" then
    some (match v with
      | QueryValue.port n => decide (f.socket.2.2 = n)
      | _ => false)
  else none

/-- The inner loop of `get_flow` over one flow: `candidate` stays `True` when
every supplied keyword either is absent from the predicate table or its
predicate holds of the flow. -/
def isCandidate (kwargs : List (String × QueryValue)) (f : Flow) : Bool :=
  kwargs.all (fun kv =>
    match predicates kv.1 f kv.2 with
    | some b => b
    | none => true)

/-- The method `TCPFlowAccumulator.get_flow`: walk the registry's flows in
order and return the first candidate; falling off the loop returns `None`. -/
def get_flow (st : Registry) (kwargs : List (String × QueryValue)) : Option Flow :=
  match st with
  | [] => none
  | e :: rest => if isCandidate kwargs e.2 then some e.2 else get_flow rest kwargs

/-- The claim's reading of the criteria: the flow satisfies, conjunctively,
every supplied criterion the implementation knows. -/
def SatisfiesAll (kwargs : List (String × QueryValue)) (f : Flow) : Prop :=
  ∀ kv ∈ kwargs, ∀ b, predicates kv.1 f kv.2 = some b → b = true

/-- The five keyword names `get_flow` understands. -/
def recognizedKey (k : String) : Bool :=
  k = "socket" || k = "fwd" || k = "rev" || k = "sport" || k = "dport"

lemma predicates_unrecognized (k : String) (f : Flow) (v : QueryValue)
    (h : recognizedKey k = false) : predicates k f v = none := by
  simp only [recognizedKey, Bool.or_eq_false_iff, decide_eq_false_iff_not] at h
  obtain ⟨⟨⟨⟨h1, h2⟩, h3⟩, h4⟩, h5⟩ := h
  simp [predicates, h1, h2, h3, h4, h5]

lemma get_flow_eq_find (st : Registry) (kwargs : List (String × QueryValue)) :
    get_flow st kwargs = (fdValues st).find? (isCandidate kwargs) := by
  induction st with
  | nil => rfl
  | cons e rest ih =>
    simp only [get_flow, fdValues, List.map_cons]
    by_cases hc : isCandidate kwargs e.2
    · rw [if_pos hc, List.find?_cons_of_pos _ hc]
    · rw [if_neg hc, List.find?_cons_of_neg _ hc]
      exact ih

lemma isCandidate_iff (kwargs : List (String × QueryValue)) (f : Flow) :
    isCandidate kwargs f = true ↔ SatisfiesAll kwargs f := by
  unfold isCandidate SatisfiesAll
  rw [List.all_eq_true]
  constructor
  · intro h kv hkv b hb
    simpa [hb] using h kv hkv
  · intro h kv hkv
    rcases hp : predicates kv.1 f kv.2 with _ | b
    · simp [hp]
    · simp [hp, h kv hkv b hp]

/-- C8: `get_flow` evaluates the supplied criteria conjunctively and returns
the first flow in registry iteration order satisfying all of them, or `None`
when no flow does: it equals a first-match search with the candidate test; the
candidate test holds exactly when every supplied recognized criterion holds;
it returns `None` exactly when no flow satisfies them all; and a returned flow
satisfies them all while every flow before it in registry order fails some
criterion. -/
theorem get_flow_first_conjunctive_match (st : Registry)
    (kwargs : List (String × QueryValue)) :
    get_flow st kwargs = (fdValues st).find? (isCandidate kwargs) ∧
    (∀ f : Flow, isCandidate kwargs f = true ↔ SatisfiesAll kwargs f) ∧
    (get_flow st kwargs = none ↔ ∀ f ∈ fdValues st, ¬ SatisfiesAll kwargs f) ∧
    ∀ f : Flow, get_flow st kwargs = some f →
      SatisfiesAll kwargs f ∧
      ∃ pre post, fdValues st = pre ++ f :: post ∧
        ∀ g ∈ pre, ¬ SatisfiesAll kwargs g := by
  refine ⟨get_flow_eq_find st kwargs, isCandidate_iff kwargs, ?_, ?_⟩
  · rw [get_flow_eq_find st kwargs, List.find?_eq_none]
    constructor
    · intro h f hf hsat
      exact h f hf ((isCandidate_iff kwargs f).mpr hsat)
    · intro h f hf hc
      exact h f hf ((isCandidate_iff kwargs f).mp hc)
  · intro f hf
    rw [get_flow_eq_find st kwargs, List.find?_eq_some] at hf
    obtain ⟨hpf, pre, post, hsplit, hpre⟩ := hf
    refine ⟨(isCandidate_iff kwargs f).mp hpf, pre, post, hsplit, ?_⟩
    intro g hg hsat
    have := hpre g hg
    rw [(isCandidate_iff kwargs g).mpr hsat] at this
    cases this

lemma isCandidate_filter_recognized (kwargs : List (String × QueryValue))
    (f : Flow) :
    isCandidate (kwargs.filter (fun kv => recognizedKey kv.1)) f
      = isCandidate kwargs f := by
  induction kwargs with
  | nil => rfl
  | cons kv rest ih =>
    rcases hr : recognizedKey kv.1 with _ | _
    · have hstep : isCandidate (kv :: rest) f = isCandidate rest f := by
        unfold isCandidate
        rw [List.all_cons, predicates_unrecognized kv.1 f kv.2 hr]
        simp
      rw [List.filter_cons, if_neg (by simp [hr]), hstep]
      exact ih
    · rw [List.filter_cons, if_pos (by simp [hr])]
      unfold isCandidate at ih ⊢
      rw [List.all_cons, List.all_cons, ih]

/-- C10: keyword criteria whose name is not one of the five supported keys
are silently ignored: dropping them from the call changes nothing, and a call
supplying only unrecognized keywords (or none at all) returns the registry's
first flow — `None` only on an empty registry. -/
theorem get_flow_ignores_unrecognized (st : Registry)
    (kwargs : List (String × QueryValue)) :
    get_flow st (kwargs.filter (fun kv => recognizedKey kv.1))
        = get_flow st kwargs ∧
    ((∀ kv ∈ kwargs, recognizedKey kv.1 = false) →
      get_flow st kwargs = (fdValues st).head?) := by
  constructor
  · induction st with
    | nil => rfl
    | cons e rest ih =>
      simp only [get_flow, isCandidate_filter_recognized]
      by_cases hc : isCandidate kwargs e.2
      · rw [if_pos hc, if_pos hc]
      · rw [if_neg hc, if_neg hc, ih]
  · intro h
    have hall : ∀ f : Flow, isCandidate kwargs f = true := by
      intro f
      unfold isCandidate
      rw [List.all_eq_true]
      intro kv hkv
      rw [predicates_unrecognized kv.1 f kv.2 (h kv hkv)]
    cases st with
    | nil => rfl
    | cons e rest =>
      simp only [get_flow, if_pos (hall e.2), fdValues, List.map_cons, List.head?_cons]

end Pcap
